import Mathlib

/-!
# miniaudio_wrapper.c : decoder-handle helpers

A shallow embedding of `src/audio/miniaudio_wrapper.c`.

* Memory is byte addressed.  Address `0` is the null pointer.  Every byte is either
  mapped (it belongs to a live object) or not; a 32-bit access that touches a byte that is
  not mapped has no result (`none`), which is how a crash is modelled.
* `ma_format` and `ma_uint32` are both 32-bit objects.  A 32-bit value is laid out least
  significant byte first.
* `struct ma_decoder` is declared in `miniaudio.h`, which is not part of the sources.  Its
  size and the offsets of the three fields the wrapper reads are parameters (`Layout`).
* `malloc` and `free` belong to the host C library.  They are parameters (`Host`), and both
  return: what the host does with a pointer it never handed out is the host's matter.
* A non-null pointer is well formed when the object it points to is mapped (and, for a
  pointer to a 32-bit object, when it is 4-byte aligned).  Statements about calls with
  non-null pointers assume well-formed pointers; nothing is assumed about address `0`.
* Every C function takes the machine state and returns the new one.  The machine state
  carries, next to memory and the allocator's private state, the list of the memory accesses
  and allocator calls performed so far.
-/

namespace MiniaudioWrapper

/-! ## Definitions -/

/-- Byte-addressed memory: the contents of every byte and whether the byte is mapped. -/
structure Mem where
  bytes : Nat → Fin 256
  mapped : Nat → Bool

/-- The `i`-th byte (least significant first) of the value `v`. -/
def byteOf (v i : Nat) : Fin 256 :=
  ⟨v / 256 ^ i % 256, Nat.mod_lt _ (by decide)⟩

/-- The four bytes at `a`, `a+1`, `a+2`, `a+3` are mapped. -/
def Mem.valid32 (m : Mem) (a : Nat) : Bool :=
  m.mapped a && m.mapped (a + 1) && m.mapped (a + 2) && m.mapped (a + 3)

/-- The 32-bit value stored in the four bytes at `a`. -/
def Mem.read32 (m : Mem) (a : Nat) : Nat :=
  (m.bytes a).val + 256 * (m.bytes (a + 1)).val + 65536 * (m.bytes (a + 2)).val
    + 16777216 * (m.bytes (a + 3)).val

/-- Memory after the 32-bit value `v % 2^32` has been stored in the four bytes at `a`. -/
def Mem.write32 (m : Mem) (a v : Nat) : Mem :=
  { bytes := fun x =>
      if x = a then byteOf v 0
      else if x = a + 1 then byteOf v 1
      else if x = a + 2 then byteOf v 2
      else if x = a + 3 then byteOf v 3
      else m.bytes x
    mapped := m.mapped }

/-- What the program does that can be observed from outside: a 32-bit load, a 32-bit store,
a call of the host's `malloc` (with the pointer it returned) and a call of the host's
`free`. -/
inductive Event where
  | load (addr val : Nat)
  | store (addr val : Nat)
  | malloc (size ret : Nat)
  | free (ptr : Nat)
  deriving DecidableEq, Repr

/-- The machine state: memory, the private state of the host allocator, and the events
performed so far (oldest first). -/
structure Machine (σ : Type) where
  mem : Mem
  heap : σ
  trace : List Event

/-- The host C library's allocator.  `malloc` returns the pointer (`0` when the request
cannot be satisfied) with the new allocator state and the new memory; `free` returns the new
allocator state and memory.  `extent h p` is the size of the live block based at `p`, when
there is one. -/
structure Host (σ : Type) where
  malloc : σ → Mem → Nat → Nat × σ × Mem
  free : σ → Mem → Nat → σ × Mem
  extent : σ → Nat → Option Nat

/-- A 32-bit load through the pointer `a`. -/
def load32 {σ : Type} (s : Machine σ) (a : Nat) : Option (Nat × Machine σ) :=
  if s.mem.valid32 a then
    some (s.mem.read32 a,
      { mem := s.mem, heap := s.heap, trace := s.trace ++ [Event.load a (s.mem.read32 a)] })
  else none

/-- A 32-bit store of `v` through the pointer `a`. -/
def store32 {σ : Type} (s : Machine σ) (a v : Nat) : Option (Machine σ) :=
  if s.mem.valid32 a then
    some { mem := s.mem.write32 a v, heap := s.heap, trace := s.trace ++ [Event.store a v] }
  else none

/-- A call of the host's `malloc(n)`. -/
def hostMalloc {σ : Type} (H : Host σ) (s : Machine σ) (n : Nat) : Nat × Machine σ :=
  let r := H.malloc s.heap s.mem n
  (r.1, { mem := r.2.2, heap := r.2.1, trace := s.trace ++ [Event.malloc n r.1] })

/-- A call of the host's `free(p)`. -/
def hostFree {σ : Type} (H : Host σ) (s : Machine σ) (p : Nat) : Machine σ :=
  let r := H.free s.heap s.mem p
  { mem := r.2, heap := r.1, trace := s.trace ++ [Event.free p] }

/-- The part of `struct ma_decoder` (declared in `miniaudio.h`) that the wrapper depends on:
`sizeof(ma_decoder)` and the byte offsets of `outputFormat`, `outputChannels` and
`outputSampleRate`. -/
structure Layout where
  sizeofDecoder : Nat
  offOutputFormat : Nat
  offOutputChannels : Nat
  offOutputSampleRate : Nat

/-- Each of the three fields is a 32-bit object that lies inside the structure. -/
def Layout.wf (L : Layout) : Prop :=
  L.offOutputFormat + 4 ≤ L.sizeofDecoder ∧
  L.offOutputChannels + 4 ≤ L.sizeofDecoder ∧
  L.offOutputSampleRate + 4 ≤ L.sizeofDecoder

instance (L : Layout) : Decidable L.wf := by
  unfold Layout.wf; infer_instance

/-- The C function `ma_decoder_get_output_info` (lines 11-17). -/
def ma_decoder_get_output_info {σ : Type} (L : Layout)
    (pDecoder pFormat pChannels pSampleRate : Nat) (s : Machine σ) : Option (Machine σ) :=
  if pDecoder ≠ 0 then do
    let s1 ← if pFormat ≠ 0 then do
        let r ← load32 s (pDecoder + L.offOutputFormat)
        store32 r.2 pFormat r.1
      else pure s
    let s2 ← if pChannels ≠ 0 then do
        let r ← load32 s1 (pDecoder + L.offOutputChannels)
        store32 r.2 pChannels r.1
      else pure s1
    let s3 ← if pSampleRate ≠ 0 then do
        let r ← load32 s2 (pDecoder + L.offOutputSampleRate)
        store32 r.2 pSampleRate r.1
      else pure s2
    pure s3
  else pure s

/-- The C function `ma_decoder_sizeof` (lines 20-22). -/
def ma_decoder_sizeof {σ : Type} (L : Layout) (s : Machine σ) : Nat × Machine σ :=
  (L.sizeofDecoder, s)

/-- The C function `ma_decoder_alloc` (lines 25-27). -/
def ma_decoder_alloc {σ : Type} (H : Host σ) (L : Layout) (s : Machine σ) : Nat × Machine σ :=
  hostMalloc H s L.sizeofDecoder

/-- The C function `ma_decoder_free` (lines 30-34). -/
def ma_decoder_free {σ : Type} (H : Host σ) (pDecoder : Nat) (s : Machine σ) : Machine σ :=
  if pDecoder ≠ 0 then hostFree H s pDecoder else s

/-- Every byte of the block of `n` bytes based at `p` is mapped. -/
def Mem.validBlock (m : Mem) (p n : Nat) : Prop :=
  ∀ i, i < n → m.mapped (p + i) = true

/-- The byte `x` belongs to the 32-bit object at `a`. -/
def inSlot (x a : Nat) : Prop := a ≤ x ∧ x < a + 4

/-- The 32-bit object at `a` shares no byte with the block of `n` bytes based at `p`. -/
def outside (a p n : Nat) : Prop := a + 4 ≤ p ∨ p + n ≤ a

/-- The 32-bit objects at `a` and `b` share no byte. -/
def apart (a b : Nat) : Prop := a + 4 ≤ b ∨ b + 4 ≤ a

instance (m : Mem) (p n : Nat) : Decidable (m.validBlock p n) := by
  unfold Mem.validBlock; infer_instance

instance (x a : Nat) : Decidable (inSlot x a) := by
  unfold inSlot; infer_instance

instance (a p n : Nat) : Decidable (outside a p n) := by
  unfold outside; infer_instance

instance (a b : Nat) : Decidable (apart a b) := by
  unfold apart; infer_instance

/-- One line of `ma_decoder_get_output_info`, `if (slot) *slot = *src;`, used to take the
function apart in the proofs (`get_output_info_eq`). -/
def copyField {σ : Type} (src slot : Nat) (s : Machine σ) : Option (Machine σ) :=
  if slot ≠ 0 then do
    let r ← load32 s src
    store32 r.2 slot r.1
  else pure s

/-- The state that `copyField` produces when it does not fault. -/
def copied {σ : Type} (src slot : Nat) (s : Machine σ) : Machine σ :=
  if slot = 0 then s
  else
    { mem := s.mem.write32 slot (s.mem.read32 src)
      heap := s.heap
      trace := s.trace ++
        [Event.load src (s.mem.read32 src), Event.store slot (s.mem.read32 src)] }

/-- The state reached after the three copies of `ma_decoder_get_output_info`, in order. -/
def copied3 {σ : Type} (L : Layout) (p f c r : Nat) (s : Machine σ) : Machine σ :=
  copied (p + L.offOutputSampleRate) r
    (copied (p + L.offOutputChannels) c (copied (p + L.offOutputFormat) f s))

/-- A small layout for the concrete runs: a 24-byte structure whose three output fields
sit at offsets 8, 12 and 16.  The theorems hold for every layout. -/
def demoLayout : Layout :=
  { sizeofDecoder := 24, offOutputFormat := 8, offOutputChannels := 12, offOutputSampleRate := 16 }

/-- Modelled from the spec: the `signed-16` sample format, a member of the `ma_format`
enumeration of `miniaudio.h`, which is not part of the sources.  The number only names the
format in the concrete runs; the theorems hold for every format value. -/
def ma_format_s16 : Nat := 2

/-- Memory with the bytes 64..159 mapped; a decoder at 64 whose output fields hold
`(ma_format_s16, 2, 44100)`; every other byte is zero. -/
def demoMem : Mem :=
  { bytes := fun a =>
      if a = 72 then 2 else if a = 76 then 2 else if a = 80 then 68 else if a = 81 then 172
      else 0
    mapped := fun a => decide (64 ≤ a) && decide (a < 160) }

/-- The machine over `demoMem`, with no allocator state and no events yet. -/
def demoMachine : Machine Unit :=
  { mem := demoMem, heap := (), trace := [] }

/-- The events of one line `if (slot) *slot = *src;` when `v` is the value read: none for a
null slot, else the load of the field followed by the store into the slot. -/
def copyEvents (src slot v : Nat) : List Event :=
  if slot = 0 then [] else [Event.load src v, Event.store slot v]

/-- What a conforming `malloc` guarantees: when it returns a non-null pointer for a request
of `n` bytes, the block based there is live with extent exactly `n`, and all its `n` bytes
are mapped. -/
def Host.MallocContract {σ : Type} (H : Host σ) : Prop :=
  ∀ h m n, (H.malloc h m n).1 ≠ 0 →
    H.extent (H.malloc h m n).2.1 (H.malloc h m n).1 = some n ∧
    (H.malloc h m n).2.2.validBlock (H.malloc h m n).1 n

/-- The state of a bump allocator: the next free address, the end of its arena and the live
blocks (base and size, newest first). -/
structure Bump where
  next : Nat
  limit : Nat
  live : List (Nat × Nat)

/-- A bump allocator: `malloc n` hands out the next `n` bytes of the arena, leaving their
contents as they are, and returns null when the arena is exhausted; `free` forgets the
block. -/
def bumpHost : Host Bump :=
  { malloc := fun h m n =>
      if h.next ≠ 0 ∧ h.next + n ≤ h.limit then
        (h.next,
          { next := h.next + n, limit := h.limit, live := (h.next, n) :: h.live },
          { bytes := m.bytes
            mapped := fun a => m.mapped a || (decide (h.next ≤ a) && decide (a < h.next + n)) })
      else (0, h, m)
    free := fun h m p =>
      ({ next := h.next, limit := h.limit, live := h.live.filter fun b => b.1 ≠ p }, m)
    extent := fun h p => (h.live.find? fun b => b.1 = p).map Prod.snd }

/-- Memory as a host may hand it out: every byte but the null one is mapped and holds
`0xAB`. -/
def garbageMem : Mem :=
  { bytes := fun _ => 171, mapped := fun a => decide (a ≠ 0) }

/-- A machine whose bump allocator has room for exactly one decoder, at address 8, over
`garbageMem`. -/
def garbageMachine (L : Layout) : Machine Bump :=
  { mem := garbageMem, heap := { next := 8, limit := 8 + L.sizeofDecoder, live := [] },
    trace := [] }

/-- The machine over `demoMem` with a bump allocator that has no room left. -/
def fullMachine : Machine Bump :=
  { mem := demoMem, heap := { next := 8, limit := 0, live := [] }, trace := [] }

/-- Memory in which the three slots used below are clear and the allocator's arena holds
leftovers: the bytes below 16 are zero, every byte from 16 on holds `0xAB`; every byte but
the null one is mapped. -/
def staleMem : Mem :=
  { bytes := fun a => if a < 16 then 0 else 171, mapped := fun a => decide (a ≠ 0) }

/-- A machine over `staleMem` whose bump allocator has room for exactly one decoder, at
address 16. -/
def staleMachine (L : Layout) : Machine Bump :=
  { mem := staleMem, heap := { next := 16, limit := 16 + L.sizeofDecoder, live := [] },
    trace := [] }

/-- A call of one of the four functions, with its arguments. -/
inductive ApiCall where
  | sizeof
  | alloc
  | free (pDecoder : Nat)
  | getOutputInfo (pDecoder pFormat pChannels pSampleRate : Nat)

/-- The state after one call (`none` when the call faults). -/
def ApiCall.exec {σ : Type} (H : Host σ) (L : Layout) : ApiCall → Machine σ → Option (Machine σ)
  | ApiCall.sizeof, s => some (ma_decoder_sizeof L s).2
  | ApiCall.alloc, s => some (ma_decoder_alloc H L s).2
  | ApiCall.free p, s => some (ma_decoder_free H p s)
  | ApiCall.getOutputInfo p f c r, s => ma_decoder_get_output_info L p f c r s

/-- The state after a sequence of calls, first call first. -/
def execAll {σ : Type} (H : Host σ) (L : Layout) : List ApiCall → Machine σ → Option (Machine σ)
  | [], s => some s
  | c :: cs, s => (c.exec H L s).bind (execAll H L cs)

/-! ## Lemmas -/

theorem read32_lt (m : Mem) (a : Nat) : m.read32 a < 4294967296 := by
  unfold Mem.read32
  have h0 := (m.bytes a).isLt
  have h1 := (m.bytes (a + 1)).isLt
  have h2 := (m.bytes (a + 2)).isLt
  have h3 := (m.bytes (a + 3)).isLt
  omega

theorem write32_bytes_outside (m : Mem) (a v x : Nat) (h : ¬ inSlot x a) :
    (m.write32 a v).bytes x = m.bytes x := by
  unfold inSlot at h
  have h0 : x ≠ a := by omega
  have h1 : x ≠ a + 1 := by omega
  have h2 : x ≠ a + 2 := by omega
  have h3 : x ≠ a + 3 := by omega
  simp [Mem.write32, h0, h1, h2, h3]

theorem read32_write32_same (m : Mem) (a v : Nat) :
    (m.write32 a v).read32 a = v % 4294967296 := by
  simp [Mem.read32, Mem.write32, byteOf]
  omega

theorem read32_write32_apart (m : Mem) (a v b : Nat) (h : apart a b) :
    (m.write32 a v).read32 b = m.read32 b := by
  unfold Mem.read32
  unfold apart at h
  rw [write32_bytes_outside m a v b (by unfold inSlot; omega),
    write32_bytes_outside m a v (b + 1) (by unfold inSlot; omega),
    write32_bytes_outside m a v (b + 2) (by unfold inSlot; omega),
    write32_bytes_outside m a v (b + 3) (by unfold inSlot; omega)]

theorem valid32_of_validBlock (m : Mem) (p n off : Nat) (h : m.validBlock p n)
    (hoff : off + 4 ≤ n) : m.valid32 (p + off) = true := by
  have h0 := h off (by omega)
  have h1 := h (off + 1) (by omega)
  have h2 := h (off + 2) (by omega)
  have h3 := h (off + 3) (by omega)
  simp only [Mem.valid32, Bool.and_eq_true]
  refine ⟨⟨⟨h0, ?_⟩, ?_⟩, ?_⟩
  · rw [← h1]; congr 1
  · rw [← h2]; congr 1
  · rw [← h3]; congr 1

theorem copyField_eq {σ : Type} (src slot : Nat) (s : Machine σ)
    (hsrc : slot ≠ 0 → s.mem.valid32 src = true)
    (hslot : slot ≠ 0 → s.mem.valid32 slot = true) :
    copyField src slot s = some (copied src slot s) := by
  by_cases h : slot = 0
  · simp [copyField, copied, h]
  · simp [copyField, copied, h, load32, store32, hsrc h, hslot h]

theorem copied_mapped {σ : Type} (src slot : Nat) (s : Machine σ) :
    (copied src slot s).mem.mapped = s.mem.mapped := by
  unfold copied; split <;> rfl

theorem copied_heap {σ : Type} (src slot : Nat) (s : Machine σ) :
    (copied src slot s).heap = s.heap := by
  unfold copied; split <;> rfl

theorem copied_valid32 {σ : Type} (src slot : Nat) (s : Machine σ) (b : Nat) :
    (copied src slot s).mem.valid32 b = s.mem.valid32 b := by
  unfold copied; split <;> rfl

theorem copied_bytes_outside {σ : Type} (src slot : Nat) (s : Machine σ) (x : Nat)
    (h : slot = 0 ∨ ¬ inSlot x slot) :
    (copied src slot s).mem.bytes x = s.mem.bytes x := by
  unfold copied
  split
  · rfl
  · rename_i h0
    exact write32_bytes_outside _ _ _ _ (h.resolve_left h0)

theorem copied_read32_apart {σ : Type} (src slot : Nat) (s : Machine σ) (b : Nat)
    (h : slot = 0 ∨ apart slot b) :
    (copied src slot s).mem.read32 b = s.mem.read32 b := by
  unfold copied
  split
  · rfl
  · rename_i h0
    exact read32_write32_apart _ _ _ _ (h.resolve_left h0)

theorem copied_read32_same {σ : Type} (src slot : Nat) (s : Machine σ) (h : slot ≠ 0) :
    (copied src slot s).mem.read32 slot = s.mem.read32 src := by
  unfold copied
  rw [if_neg h]
  show (s.mem.write32 slot (s.mem.read32 src)).read32 slot = s.mem.read32 src
  rw [read32_write32_same]
  exact Nat.mod_eq_of_lt (read32_lt _ _)

theorem get_output_info_eq {σ : Type} (L : Layout) (p f c r : Nat) (s : Machine σ) :
    ma_decoder_get_output_info L p f c r s =
      if p ≠ 0 then
        (copyField (p + L.offOutputFormat) f s).bind fun s1 =>
          (copyField (p + L.offOutputChannels) c s1).bind fun s2 =>
            copyField (p + L.offOutputSampleRate) r s2
      else some s := by
  unfold ma_decoder_get_output_info copyField
  by_cases hp : p = 0
  · simp [hp]
  · by_cases hf : f = 0 <;> by_cases hc : c = 0 <;> by_cases hr : r = 0 <;>
      simp [hp, hf, hc, hr, Option.bind_eq_bind, Option.bind_assoc]

theorem get_output_info_some {σ : Type} (L : Layout) (hL : L.wf) (p f c r : Nat)
    (s : Machine σ) (hp : p ≠ 0) (hblk : s.mem.validBlock p L.sizeofDecoder)
    (hf : f ≠ 0 → s.mem.valid32 f = true) (hc : c ≠ 0 → s.mem.valid32 c = true)
    (hr : r ≠ 0 → s.mem.valid32 r = true) :
    ma_decoder_get_output_info L p f c r s = some (copied3 L p f c r s) := by
  obtain ⟨h1, h2, h3⟩ := hL
  have vF := valid32_of_validBlock s.mem p _ L.offOutputFormat hblk (by omega)
  have vC := valid32_of_validBlock s.mem p _ L.offOutputChannels hblk (by omega)
  have vR := valid32_of_validBlock s.mem p _ L.offOutputSampleRate hblk (by omega)
  rw [get_output_info_eq, if_pos hp]
  rw [copyField_eq _ _ _ (fun _ => vF) hf]
  simp only [Option.some_bind]
  rw [copyField_eq _ _ _ (fun _ => by rw [copied_valid32]; exact vC)
    (fun h => by rw [copied_valid32]; exact hc h)]
  simp only [Option.some_bind]
  rw [copyField_eq _ _ _ (fun _ => by rw [copied_valid32, copied_valid32]; exact vR)
    (fun h => by rw [copied_valid32, copied_valid32]; exact hr h)]
  rfl

theorem apart_of_outside (a p n off : Nat) (h : outside a p n) (hoff : off + 4 ≤ n) :
    apart a (p + off) := by
  unfold outside at h
  unfold apart
  omega

theorem apart_of_aligned (a b : Nat) (ha : 4 ∣ a) (hb : 4 ∣ b) (h : a ≠ b) : apart a b := by
  unfold apart
  omega

theorem not_inSlot_of_outside (a p n i : Nat) (h : outside a p n) (hi : i < n) :
    ¬ inSlot (p + i) a := by
  unfold outside at h
  unfold inSlot
  omega

theorem copied_trace {σ : Type} (src slot : Nat) (s : Machine σ) :
    (copied src slot s).trace = s.trace ++ copyEvents src slot (s.mem.read32 src) := by
  unfold copied copyEvents
  split <;> simp

theorem copied3_trace {σ : Type} (L : Layout) (p f c r : Nat) (s : Machine σ) :
    (copied3 L p f c r s).trace = s.trace ++
      (copyEvents (p + L.offOutputFormat) f (s.mem.read32 (p + L.offOutputFormat)) ++
        copyEvents (p + L.offOutputChannels) c
          ((copied (p + L.offOutputFormat) f s).mem.read32 (p + L.offOutputChannels)) ++
        copyEvents (p + L.offOutputSampleRate) r
          ((copied (p + L.offOutputChannels) c (copied (p + L.offOutputFormat) f s)).mem.read32
            (p + L.offOutputSampleRate))) := by
  unfold copied3
  rw [copied_trace, copied_trace, copied_trace]
  simp [List.append_assoc]

theorem copyEvents_no_null (src slot v : Nat) (hsrc : src ≠ 0) (w : Nat) :
    Event.load 0 w ∉ copyEvents src slot v ∧ Event.store 0 w ∉ copyEvents src slot v := by
  unfold copyEvents
  split
  · simp
  · rename_i h
    simp only [List.mem_cons, List.mem_singleton, List.not_mem_nil, or_false, not_or]
    refine ⟨⟨?_, ?_⟩, ⟨?_, ?_⟩⟩
    · intro e; injection e with e1 _; exact hsrc e1.symm
    · intro e; cases e
    · intro e; cases e
    · intro e; injection e with e1 _; exact h e1.symm

theorem mem_eq (m n : Mem) (hb : ∀ x, m.bytes x = n.bytes x) (hm : m.mapped = n.mapped) :
    m = n := by
  cases m
  cases n
  simp only [Mem.mk.injEq]
  exact ⟨funext hb, hm⟩

theorem copied_bytes_congr {σ : Type} (src slot : Nat) (s t : Machine σ)
    (hv : slot ≠ 0 → s.mem.read32 src = t.mem.read32 src) (x : Nat)
    (hx : (slot = 0 ∨ ¬ inSlot x slot) → s.mem.bytes x = t.mem.bytes x) :
    (copied src slot s).mem.bytes x = (copied src slot t).mem.bytes x := by
  unfold copied
  by_cases h0 : slot = 0
  · rw [if_pos h0, if_pos h0]
    exact hx (Or.inl h0)
  · rw [if_neg h0, if_neg h0]
    show (s.mem.write32 slot (s.mem.read32 src)).bytes x
      = (t.mem.write32 slot (t.mem.read32 src)).bytes x
    rw [hv h0]
    by_cases hin : inSlot x slot
    · unfold inSlot at hin
      simp only [Mem.write32]
      split_ifs <;> first | rfl | omega
    · rw [write32_bytes_outside _ _ _ _ hin, write32_bytes_outside _ _ _ _ hin]
      exact hx (Or.inr hin)

theorem bumpHost_contract : bumpHost.MallocContract := by
  intro h m n hne
  by_cases hc : h.next ≠ 0 ∧ h.next + n ≤ h.limit
  · simp only [bumpHost, if_pos hc]
    refine ⟨by simp, ?_⟩
    intro i hi
    simp only [Bool.or_eq_true, Bool.and_eq_true, decide_eq_true_eq]
    right
    omega
  · simp only [bumpHost, if_neg hc] at hne
    exact absurd rfl hne

theorem free_null {σ : Type} (H : Host σ) (s : Machine σ) : ma_decoder_free H 0 s = s := by
  simp [ma_decoder_free]

theorem copied3_read32_slots {σ : Type} (L : Layout) (hL : L.wf) (p f c r : Nat)
    (s : Machine σ) (hf : f ≠ 0) (hc : c ≠ 0) (hr : r ≠ 0)
    (hfo : outside f p L.sizeofDecoder) (hco : outside c p L.sizeofDecoder)
    (afc : apart f c) (afr : apart f r) (acr : apart c r) :
    (copied3 L p f c r s).mem.read32 f = s.mem.read32 (p + L.offOutputFormat) ∧
    (copied3 L p f c r s).mem.read32 c = s.mem.read32 (p + L.offOutputChannels) ∧
    (copied3 L p f c r s).mem.read32 r = s.mem.read32 (p + L.offOutputSampleRate) := by
  obtain ⟨h1, h2, h3⟩ := hL
  have fC := apart_of_outside f p _ L.offOutputChannels hfo (by omega)
  have fR := apart_of_outside f p _ L.offOutputSampleRate hfo (by omega)
  have cR := apart_of_outside c p _ L.offOutputSampleRate hco (by omega)
  unfold copied3
  refine ⟨?_, ?_, ?_⟩
  · rw [copied_read32_apart _ _ _ _ (Or.inr afr.symm),
      copied_read32_apart _ _ _ _ (Or.inr afc.symm), copied_read32_same _ _ _ hf]
  · rw [copied_read32_apart _ _ _ _ (Or.inr acr.symm), copied_read32_same _ _ _ hc,
      copied_read32_apart _ _ _ _ (Or.inr fC)]
  · rw [copied_read32_same _ _ _ hr, copied_read32_apart _ _ _ _ (Or.inr cR),
      copied_read32_apart _ _ _ _ (Or.inr fR)]

/-! ## The claims -/

/-- C1: for a non-null handle to a mapped decoder and three non-null, mapped, 4-byte
aligned, pairwise distinct slots that do not overlap the decoder, the call returns normally;
afterwards the format slot holds the decoder's `outputFormat`, the channel slot its
`outputChannels`, the sample-rate slot its `outputSampleRate`; every byte outside the three
slots, the mapping and the allocator state are unchanged.  In particular a decoder holding
`(fmt, 2, 44100)` leaves `(fmt, 2, 44100)` in the slots. -/
theorem get_output_info_copies_fields {σ : Type} (L : Layout) (hL : L.wf)
    (p f c r : Nat) (s : Machine σ)
    (hp : p ≠ 0) (hblk : s.mem.validBlock p L.sizeofDecoder)
    (hf : f ≠ 0) (hc : c ≠ 0) (hr : r ≠ 0)
    (hfv : s.mem.valid32 f = true) (hcv : s.mem.valid32 c = true)
    (hrv : s.mem.valid32 r = true)
    (haf : 4 ∣ f) (hac : 4 ∣ c) (har : 4 ∣ r)
    (hfc : f ≠ c) (hfr : f ≠ r) (hcr : c ≠ r)
    (hfo : outside f p L.sizeofDecoder) (hco : outside c p L.sizeofDecoder)
    (hro : outside r p L.sizeofDecoder) :
    ∃ s', ma_decoder_get_output_info L p f c r s = some s' ∧
      s'.mem.read32 f = s.mem.read32 (p + L.offOutputFormat) ∧
      s'.mem.read32 c = s.mem.read32 (p + L.offOutputChannels) ∧
      s'.mem.read32 r = s.mem.read32 (p + L.offOutputSampleRate) ∧
      s'.mem.read32 (p + L.offOutputFormat) = s.mem.read32 (p + L.offOutputFormat) ∧
      s'.mem.read32 (p + L.offOutputChannels) = s.mem.read32 (p + L.offOutputChannels) ∧
      s'.mem.read32 (p + L.offOutputSampleRate) = s.mem.read32 (p + L.offOutputSampleRate) ∧
      (∀ x, ¬ inSlot x f → ¬ inSlot x c → ¬ inSlot x r → s'.mem.bytes x = s.mem.bytes x) ∧
      s'.mem.mapped = s.mem.mapped ∧ s'.heap = s.heap ∧
      (∀ fmt, s.mem.read32 (p + L.offOutputFormat) = fmt →
        s.mem.read32 (p + L.offOutputChannels) = 2 →
        s.mem.read32 (p + L.offOutputSampleRate) = 44100 →
        s'.mem.read32 f = fmt ∧ s'.mem.read32 c = 2 ∧ s'.mem.read32 r = 44100) := by
  have hw := hL
  obtain ⟨h1, h2, h3⟩ := hw
  have afc := apart_of_aligned f c haf hac hfc
  have afr := apart_of_aligned f r haf har hfr
  have acr := apart_of_aligned c r hac har hcr
  have fF := apart_of_outside f p _ L.offOutputFormat hfo (by omega)
  have fC := apart_of_outside f p _ L.offOutputChannels hfo (by omega)
  have fR := apart_of_outside f p _ L.offOutputSampleRate hfo (by omega)
  have cF := apart_of_outside c p _ L.offOutputFormat hco (by omega)
  have cC := apart_of_outside c p _ L.offOutputChannels hco (by omega)
  have cR := apart_of_outside c p _ L.offOutputSampleRate hco (by omega)
  have rF := apart_of_outside r p _ L.offOutputFormat hro (by omega)
  have rC := apart_of_outside r p _ L.offOutputChannels hro (by omega)
  have rR := apart_of_outside r p _ L.offOutputSampleRate hro (by omega)
  obtain ⟨e1, e2, e3⟩ := copied3_read32_slots L hL p f c r s hf hc hr hfo hco afc afr acr
  refine ⟨copied3 L p f c r s,
    get_output_info_some L hL p f c r s hp hblk (fun _ => hfv) (fun _ => hcv) (fun _ => hrv),
    e1, e2, e3, ?_, ?_, ?_, ?_, ?_, ?_, ?_⟩
  · unfold copied3
    rw [copied_read32_apart _ _ _ _ (Or.inr rF), copied_read32_apart _ _ _ _ (Or.inr cF),
      copied_read32_apart _ _ _ _ (Or.inr fF)]
  · unfold copied3
    rw [copied_read32_apart _ _ _ _ (Or.inr rC), copied_read32_apart _ _ _ _ (Or.inr cC),
      copied_read32_apart _ _ _ _ (Or.inr fC)]
  · unfold copied3
    rw [copied_read32_apart _ _ _ _ (Or.inr rR), copied_read32_apart _ _ _ _ (Or.inr cR),
      copied_read32_apart _ _ _ _ (Or.inr fR)]
  · intro x xf xc xr
    unfold copied3
    rw [copied_bytes_outside _ _ _ _ (Or.inr xr), copied_bytes_outside _ _ _ _ (Or.inr xc),
      copied_bytes_outside _ _ _ _ (Or.inr xf)]
  · unfold copied3
    rw [copied_mapped, copied_mapped, copied_mapped]
  · unfold copied3
    rw [copied_heap, copied_heap, copied_heap]
  · intro fmt hF hC hR
    rw [e1, e2, e3]
    exact ⟨hF, hC, hR⟩

/-- C1 (a run): the decoder at 64 of `demoMachine` holds `(ma_format_s16, 2, 44100)`;
with the slots at 128, 132 and 136 the call leaves exactly these three values in them. -/
theorem get_output_info_copies_fields_witness :
    ∃ s', ma_decoder_get_output_info demoLayout 64 128 132 136 demoMachine = some s' ∧
      s'.mem.read32 128 = ma_format_s16 ∧ s'.mem.read32 132 = 2 ∧
      s'.mem.read32 136 = 44100 := by
  obtain ⟨s', h, _, _, _, _, _, _, _, _, _, hv⟩ :=
    get_output_info_copies_fields demoLayout (by decide) 64 128 132 136 demoMachine
      (by decide) (by decide) (by decide) (by decide) (by decide)
      (by decide) (by decide) (by decide) (by decide) (by decide) (by decide)
      (by decide) (by decide) (by decide) (by decide) (by decide) (by decide)
  exact ⟨s', h, hv ma_format_s16 (by decide) (by decide) (by decide)⟩

/-- C2: called with a null handle, `ma_decoder_get_output_info` returns normally and the
whole machine state (memory contents, mapping, allocator state, events performed) is the
one before the call, whatever the three slots are (null or not, mapped or not) and whatever
memory holds. -/
theorem get_output_info_null_handle {σ : Type} (L : Layout) (f c r : Nat) (s : Machine σ) :
    ma_decoder_get_output_info L 0 f c r s = some s := by
  rw [get_output_info_eq]
  simp

/-- C3: for a non-null handle to a mapped decoder and three slots each of which is null or
mapped (all eight combinations), the call returns normally, also when address 0 is not
mapped.  The events it performs are, for the format, channel and sample-rate slot in this
order, nothing when the slot is null and otherwise one load of the corresponding decoder
field followed by one store of the loaded value into the slot; none of them is a load or a
store at the null address.  Every byte that changed lies in a non-null slot; the mapping and
the allocator state are unchanged.  When in addition the non-null slots overlap neither the
decoder nor one another, each of them ends holding the decoder's corresponding field. -/
theorem get_output_info_skips_null_slots {σ : Type} (L : Layout) (hL : L.wf)
    (p f c r : Nat) (s : Machine σ)
    (hp : p ≠ 0) (hblk : s.mem.validBlock p L.sizeofDecoder)
    (hf : f = 0 ∨ s.mem.valid32 f = true) (hc : c = 0 ∨ s.mem.valid32 c = true)
    (hr : r = 0 ∨ s.mem.valid32 r = true) :
    ∃ s' vc vr ev, ma_decoder_get_output_info L p f c r s = some s' ∧
      s'.trace = s.trace ++ ev ∧
      ev = copyEvents (p + L.offOutputFormat) f (s.mem.read32 (p + L.offOutputFormat)) ++
          copyEvents (p + L.offOutputChannels) c vc ++
          copyEvents (p + L.offOutputSampleRate) r vr ∧
      (∀ w, Event.load 0 w ∉ ev ∧ Event.store 0 w ∉ ev) ∧
      (∀ x, s'.mem.bytes x ≠ s.mem.bytes x →
        (f ≠ 0 ∧ inSlot x f) ∨ (c ≠ 0 ∧ inSlot x c) ∨ (r ≠ 0 ∧ inSlot x r)) ∧
      s'.mem.mapped = s.mem.mapped ∧ s'.heap = s.heap ∧
      ((f = 0 ∨ outside f p L.sizeofDecoder) → (c = 0 ∨ outside c p L.sizeofDecoder) →
        (r = 0 ∨ outside r p L.sizeofDecoder) →
        (f = 0 ∨ c = 0 ∨ apart f c) → (f = 0 ∨ r = 0 ∨ apart f r) →
        (c = 0 ∨ r = 0 ∨ apart c r) →
        (f ≠ 0 → s'.mem.read32 f = s.mem.read32 (p + L.offOutputFormat)) ∧
        (c ≠ 0 → s'.mem.read32 c = s.mem.read32 (p + L.offOutputChannels)) ∧
        (r ≠ 0 → s'.mem.read32 r = s.mem.read32 (p + L.offOutputSampleRate)) ∧
        vc = s.mem.read32 (p + L.offOutputChannels) ∧
        vr = s.mem.read32 (p + L.offOutputSampleRate)) := by
  have hw := hL
  obtain ⟨h1, h2, h3⟩ := hw
  have pF : p + L.offOutputFormat ≠ 0 := by omega
  have pC : p + L.offOutputChannels ≠ 0 := by omega
  have pR : p + L.offOutputSampleRate ≠ 0 := by omega
  refine ⟨copied3 L p f c r s,
    (copied (p + L.offOutputFormat) f s).mem.read32 (p + L.offOutputChannels),
    (copied (p + L.offOutputChannels) c (copied (p + L.offOutputFormat) f s)).mem.read32
      (p + L.offOutputSampleRate), _,
    get_output_info_some L hL p f c r s hp hblk (fun h => hf.resolve_left h)
      (fun h => hc.resolve_left h) (fun h => hr.resolve_left h),
    copied3_trace L p f c r s, rfl, ?_, ?_, ?_, ?_, ?_⟩
  · intro w
    have a := copyEvents_no_null (p + L.offOutputFormat) f
      (s.mem.read32 (p + L.offOutputFormat)) pF w
    have b := copyEvents_no_null (p + L.offOutputChannels) c
      ((copied (p + L.offOutputFormat) f s).mem.read32 (p + L.offOutputChannels)) pC w
    have d := copyEvents_no_null (p + L.offOutputSampleRate) r
      ((copied (p + L.offOutputChannels) c (copied (p + L.offOutputFormat) f s)).mem.read32
        (p + L.offOutputSampleRate)) pR w
    simp only [List.mem_append, not_or]
    exact ⟨⟨⟨a.1, b.1⟩, d.1⟩, ⟨⟨a.2, b.2⟩, d.2⟩⟩
  · intro x hx
    by_contra hn
    apply hx
    have a1 : f = 0 ∨ ¬ inSlot x f := by
      by_cases h0 : f = 0
      · exact Or.inl h0
      · exact Or.inr (fun hi => hn (Or.inl ⟨h0, hi⟩))
    have a2 : c = 0 ∨ ¬ inSlot x c := by
      by_cases h0 : c = 0
      · exact Or.inl h0
      · exact Or.inr (fun hi => hn (Or.inr (Or.inl ⟨h0, hi⟩)))
    have a3 : r = 0 ∨ ¬ inSlot x r := by
      by_cases h0 : r = 0
      · exact Or.inl h0
      · exact Or.inr (fun hi => hn (Or.inr (Or.inr ⟨h0, hi⟩)))
    unfold copied3
    rw [copied_bytes_outside _ _ _ _ a3, copied_bytes_outside _ _ _ _ a2,
      copied_bytes_outside _ _ _ _ a1]
  · unfold copied3
    rw [copied_mapped, copied_mapped, copied_mapped]
  · unfold copied3
    rw [copied_heap, copied_heap, copied_heap]
  · intro of oc or_ afc afr acr
    have fC : f = 0 ∨ apart f (p + L.offOutputChannels) :=
      of.imp id (fun h => apart_of_outside f p _ _ h (by omega))
    have fR : f = 0 ∨ apart f (p + L.offOutputSampleRate) :=
      of.imp id (fun h => apart_of_outside f p _ _ h (by omega))
    have cR : c = 0 ∨ apart c (p + L.offOutputSampleRate) :=
      oc.imp id (fun h => apart_of_outside c p _ _ h (by omega))
    refine ⟨?_, ?_, ?_, ?_, ?_⟩
    · intro f0
      have rf : r = 0 ∨ apart r f := by
        rcases afr with h | h | h
        · exact absurd h f0
        · exact Or.inl h
        · exact Or.inr h.symm
      have cf : c = 0 ∨ apart c f := by
        rcases afc with h | h | h
        · exact absurd h f0
        · exact Or.inl h
        · exact Or.inr h.symm
      unfold copied3
      rw [copied_read32_apart _ _ _ _ rf, copied_read32_apart _ _ _ _ cf,
        copied_read32_same _ _ _ f0]
    · intro c0
      have rc : r = 0 ∨ apart r c := by
        rcases acr with h | h | h
        · exact absurd h c0
        · exact Or.inl h
        · exact Or.inr h.symm
      unfold copied3
      rw [copied_read32_apart _ _ _ _ rc, copied_read32_same _ _ _ c0,
        copied_read32_apart _ _ _ _ fC]
    · intro r0
      unfold copied3
      rw [copied_read32_same _ _ _ r0, copied_read32_apart _ _ _ _ cR,
        copied_read32_apart _ _ _ _ fR]
    · exact copied_read32_apart _ _ _ _ fC
    · rw [copied_read32_apart _ _ _ _ cR, copied_read32_apart _ _ _ _ fR]

/-- C3 (a run): on `demoMachine`, with a null channel slot, the call stores the format at
128 and the sample rate at 136 and performs exactly four events, although address 0 is not
mapped. -/
theorem get_output_info_skips_null_slots_witness :
    demoMem.mapped 0 = false ∧
    ∃ s', ma_decoder_get_output_info demoLayout 64 128 0 136 demoMachine = some s' ∧
      s'.mem.read32 128 = 2 ∧ s'.mem.read32 136 = 44100 ∧
      s'.trace = [Event.load 72 2, Event.store 128 2,
        Event.load 80 44100, Event.store 136 44100] := by
  refine ⟨by decide, ?_⟩
  obtain ⟨s', vc, vr, ev, h, htr, hev, _, _, _, _, hv⟩ :=
    get_output_info_skips_null_slots demoLayout (by decide) 64 128 0 136 demoMachine
      (by decide) (by decide) (by decide) (by decide) (by decide)
  obtain ⟨v1, _, v3, _, v5⟩ :=
    hv (by decide) (by decide) (by decide) (by decide) (by decide) (by decide)
  refine ⟨s', h, ?_, ?_, ?_⟩
  · rw [v1 (by decide)]; decide
  · rw [v3 (by decide)]; decide
  · rw [htr, hev, v5, show copyEvents (64 + demoLayout.offOutputChannels) 0 vc = [] from rfl]
    decide

/-- C4: `ma_decoder_free` performs one event, the host's `free` on its argument, when the
argument is non-null and none when it is null; allocator state and memory after the call are
what the host's `free` returned in the first case and what they were in the second.
`ma_decoder_free(NULL)` returns the state it was given, and so does any number of such calls
in a row. -/
theorem free_calls_host_iff_nonnull {σ : Type} (H : Host σ) (p : Nat) (s : Machine σ) :
    (ma_decoder_free H p s).trace = s.trace ++ (if p = 0 then [] else [Event.free p]) ∧
    ((ma_decoder_free H p s).heap, (ma_decoder_free H p s).mem)
      = (if p = 0 then (s.heap, s.mem) else H.free s.heap s.mem p) ∧
    ma_decoder_free H 0 s = s ∧
    ∀ n : Nat, (ma_decoder_free H 0)^[n] s = s := by
  refine ⟨?_, ?_, free_null H s, ?_⟩
  · by_cases hp : p = 0 <;> simp [ma_decoder_free, hostFree, hp]
  · by_cases hp : p = 0 <;> simp [ma_decoder_free, hostFree, hp]
  · intro n
    induction n with
    | zero => rfl
    | succ k ih => rw [Function.iterate_succ_apply, free_null, ih]

/-- C5: `ma_decoder_alloc` performs one event, the host's `malloc` with the byte count that
`ma_decoder_sizeof` returns.  With a host whose `malloc` keeps its contract, a non-null
result is the base of a live block whose extent is exactly that byte count and whose bytes
are all mapped. -/
theorem alloc_requests_sizeof {σ : Type} (H : Host σ) (hH : H.MallocContract) (L : Layout)
    (s : Machine σ) :
    (ma_decoder_alloc H L s).2.trace
      = s.trace ++ [Event.malloc (ma_decoder_sizeof L s).1 (ma_decoder_alloc H L s).1] ∧
    ((ma_decoder_alloc H L s).1 ≠ 0 →
      H.extent (ma_decoder_alloc H L s).2.heap (ma_decoder_alloc H L s).1
        = some (ma_decoder_sizeof L s).1 ∧
      (ma_decoder_alloc H L s).2.mem.validBlock (ma_decoder_alloc H L s).1
        (ma_decoder_sizeof L s).1) := by
  refine ⟨rfl, ?_⟩
  intro h
  exact hH s.heap s.mem L.sizeofDecoder h

/-- C5 (a run): with the bump allocator at 8 and `demoLayout`, Allocate returns 8 and the
block there has extent 24, the value of the size query. -/
theorem alloc_requests_sizeof_witness :
    (ma_decoder_alloc bumpHost demoLayout (garbageMachine demoLayout)).1 = 8 ∧
    (ma_decoder_sizeof demoLayout (garbageMachine demoLayout)).1 = 24 ∧
    bumpHost.extent (ma_decoder_alloc bumpHost demoLayout (garbageMachine demoLayout)).2.heap 8
      = some 24 ∧
    (ma_decoder_alloc bumpHost demoLayout (garbageMachine demoLayout)).2.trace
      = [Event.malloc 24 8] := by
  have h := alloc_requests_sizeof bumpHost bumpHost_contract demoLayout
    (garbageMachine demoLayout)
  exact ⟨by decide, by decide, (h.2 (by decide)).1, h.1⟩

/-- C6: `ma_decoder_alloc` returns exactly the pointer the host's `malloc` returns for the
request, so it returns null if and only if the host does; this null result does occur (a
bump allocator with no room left).  The other three functions have no failure outcome: the
size query returns the size and the state unchanged, `ma_decoder_free(NULL)` returns the
state unchanged (and `ma_decoder_free` returns a state for every argument),
`ma_decoder_get_output_info` returns normally for a null handle with any slots and for a
non-null handle to a mapped decoder with slots each null or mapped. -/
theorem alloc_null_iff_host_fails {σ : Type} (H : Host σ) (L : Layout) (s : Machine σ)
    (p f c r : Nat) :
    (ma_decoder_alloc H L s).1 = (H.malloc s.heap s.mem L.sizeofDecoder).1 ∧
    ((ma_decoder_alloc H L s).1 = 0 ↔ (H.malloc s.heap s.mem L.sizeofDecoder).1 = 0) ∧
    (ma_decoder_alloc bumpHost L fullMachine).1 = 0 ∧
    ma_decoder_sizeof L s = (L.sizeofDecoder, s) ∧
    ma_decoder_free H 0 s = s ∧
    (∃ s', ma_decoder_free H p s = s') ∧
    ma_decoder_get_output_info L 0 f c r s = some s ∧
    (L.wf → p ≠ 0 → s.mem.validBlock p L.sizeofDecoder →
      (f = 0 ∨ s.mem.valid32 f = true) → (c = 0 ∨ s.mem.valid32 c = true) →
      (r = 0 ∨ s.mem.valid32 r = true) →
      ∃ s', ma_decoder_get_output_info L p f c r s = some s') := by
  refine ⟨rfl, Iff.rfl, ?_, rfl, free_null H s, ⟨_, rfl⟩, ?_, ?_⟩
  · simp [ma_decoder_alloc, hostMalloc, bumpHost, fullMachine]
  · rw [get_output_info_eq]
    simp
  · intro hL hp hblk hf hc hr
    exact ⟨_, get_output_info_some L hL p f c r s hp hblk (fun h => hf.resolve_left h)
      (fun h => hc.resolve_left h) (fun h => hr.resolve_left h)⟩

/-- C6 (a run): the exhausted bump allocator makes Allocate return null, and on the same
machine the call with handle 64 and slots 128, 0, 136 returns normally. -/
theorem alloc_null_iff_host_fails_witness :
    (ma_decoder_alloc bumpHost demoLayout fullMachine).1 = 0 ∧
    ∃ s', ma_decoder_get_output_info demoLayout 64 128 0 136 fullMachine = some s' :=
  ⟨by decide,
    (alloc_null_iff_host_fails bumpHost demoLayout fullMachine 64 128 0 136).2.2.2.2.2.2.2
      (by decide) (by decide) (by decide) (by decide) (by decide) (by decide)⟩

/-- C7: the size query returns `sizeof(ma_decoder)` and the state it was given, whatever
that state is: the same value in any two states (over any allocator), and the same value
after any sequence of calls of the four functions as before it. -/
theorem sizeof_constant {σ τ : Type} (H : Host σ) (L : Layout) (s : Machine σ)
    (t : Machine τ) (calls : List ApiCall) :
    (ma_decoder_sizeof L s).1 = (ma_decoder_sizeof L t).1 ∧
    (ma_decoder_sizeof L s).2 = s ∧
    (execAll H L calls s).map (fun s' => (ma_decoder_sizeof L s').1)
      = (execAll H L calls s).map (fun _ => (ma_decoder_sizeof L s).1) ∧
    (execAll H L [ApiCall.alloc, ApiCall.free (ma_decoder_alloc H L s).1, ApiCall.sizeof] s).map
        (fun s' => (ma_decoder_sizeof L s').1)
      = some (ma_decoder_sizeof L s).1 :=
  ⟨rfl, rfl, rfl, rfl⟩

/-- C8: the call does not change the decoder.  For a null handle, or a non-null handle to a
mapped decoder with slots each of which is null or mapped and outside the decoder, two calls
in a row both return normally; after the first one every byte of the decoder, and so its
`outputFormat`, `outputChannels` and `outputSampleRate`, is what it was before; and memory
after the second call is memory after the first. -/
theorem get_output_info_read_only {σ : Type} (L : Layout) (hL : L.wf)
    (p f c r : Nat) (s : Machine σ)
    (hblk : p ≠ 0 → s.mem.validBlock p L.sizeofDecoder)
    (hf : p ≠ 0 → f ≠ 0 → s.mem.valid32 f = true ∧ outside f p L.sizeofDecoder)
    (hc : p ≠ 0 → c ≠ 0 → s.mem.valid32 c = true ∧ outside c p L.sizeofDecoder)
    (hr : p ≠ 0 → r ≠ 0 → s.mem.valid32 r = true ∧ outside r p L.sizeofDecoder) :
    ∃ s' t2, ma_decoder_get_output_info L p f c r s = some s' ∧
      ma_decoder_get_output_info L p f c r s' = some t2 ∧
      (∀ i, i < L.sizeofDecoder → s'.mem.bytes (p + i) = s.mem.bytes (p + i)) ∧
      s'.mem.read32 (p + L.offOutputFormat) = s.mem.read32 (p + L.offOutputFormat) ∧
      s'.mem.read32 (p + L.offOutputChannels) = s.mem.read32 (p + L.offOutputChannels) ∧
      s'.mem.read32 (p + L.offOutputSampleRate) = s.mem.read32 (p + L.offOutputSampleRate) ∧
      s'.heap = s.heap ∧ s'.mem.mapped = s.mem.mapped ∧
      t2.mem = s'.mem := by
  by_cases hp : p = 0
  · refine ⟨s, s, ?_, ?_, fun _ _ => rfl, rfl, rfl, rfl, rfl, rfl, rfl⟩
    · rw [get_output_info_eq]; simp [hp]
    · rw [get_output_info_eq]; simp [hp]
  · have hw := hL
    obtain ⟨h1, h2, h3⟩ := hw
    have hb := hblk hp
    have of : f = 0 ∨ outside f p L.sizeofDecoder := by
      by_cases h0 : f = 0
      · exact Or.inl h0
      · exact Or.inr (hf hp h0).2
    have oc : c = 0 ∨ outside c p L.sizeofDecoder := by
      by_cases h0 : c = 0
      · exact Or.inl h0
      · exact Or.inr (hc hp h0).2
    have or_ : r = 0 ∨ outside r p L.sizeofDecoder := by
      by_cases h0 : r = 0
      · exact Or.inl h0
      · exact Or.inr (hr hp h0).2
    have fld : ∀ (t : Machine σ) (off : Nat), off + 4 ≤ L.sizeofDecoder →
        (copied (p + L.offOutputFormat) f t).mem.read32 (p + off) = t.mem.read32 (p + off) ∧
        (copied (p + L.offOutputChannels) c t).mem.read32 (p + off) = t.mem.read32 (p + off) ∧
        (copied (p + L.offOutputSampleRate) r t).mem.read32 (p + off)
          = t.mem.read32 (p + off) := by
      intro t off hoff
      exact ⟨copied_read32_apart _ _ _ _ (of.imp id (fun h => apart_of_outside f p _ _ h hoff)),
        copied_read32_apart _ _ _ _ (oc.imp id (fun h => apart_of_outside c p _ _ h hoff)),
        copied_read32_apart _ _ _ _ (or_.imp id (fun h => apart_of_outside r p _ _ h hoff))⟩
    have fld3 : ∀ (off : Nat), off + 4 ≤ L.sizeofDecoder →
        (copied3 L p f c r s).mem.read32 (p + off) = s.mem.read32 (p + off) := by
      intro off hoff
      unfold copied3
      rw [(fld _ off hoff).2.2, (fld _ off hoff).2.1, (fld _ off hoff).1]
    have hmap : (copied3 L p f c r s).mem.mapped = s.mem.mapped := by
      unfold copied3
      rw [copied_mapped, copied_mapped, copied_mapped]
    have hval : ∀ b, (copied3 L p f c r s).mem.valid32 b = s.mem.valid32 b := by
      intro b
      unfold copied3
      rw [copied_valid32, copied_valid32, copied_valid32]
    have hb' : (copied3 L p f c r s).mem.validBlock p L.sizeofDecoder := by
      intro i hi
      rw [hmap]
      exact hb i hi
    refine ⟨copied3 L p f c r s, copied3 L p f c r (copied3 L p f c r s),
      get_output_info_some L hL p f c r s hp hb (fun h => (hf hp h).1)
        (fun h => (hc hp h).1) (fun h => (hr hp h).1),
      get_output_info_some L hL p f c r _ hp hb' (fun h => by rw [hval]; exact (hf hp h).1)
        (fun h => by rw [hval]; exact (hc hp h).1) (fun h => by rw [hval]; exact (hr hp h).1),
      ?_, fld3 _ (by omega), fld3 _ (by omega), fld3 _ (by omega), ?_, hmap, ?_⟩
    · intro i hi
      unfold copied3
      rw [copied_bytes_outside _ _ _ _
          (or_.imp id (fun h => not_inSlot_of_outside r p _ i h hi)),
        copied_bytes_outside _ _ _ _
          (oc.imp id (fun h => not_inSlot_of_outside c p _ i h hi)),
        copied_bytes_outside _ _ _ _
          (of.imp id (fun h => not_inSlot_of_outside f p _ i h hi))]
    · unfold copied3
      rw [copied_heap, copied_heap, copied_heap]
    · apply mem_eq
      · intro x
        show (copied (p + L.offOutputSampleRate) r
            (copied (p + L.offOutputChannels) c
              (copied (p + L.offOutputFormat) f (copied3 L p f c r s)))).mem.bytes x
          = (copied (p + L.offOutputSampleRate) r
            (copied (p + L.offOutputChannels) c
              (copied (p + L.offOutputFormat) f s))).mem.bytes x
        apply copied_bytes_congr
        · intro _
          rw [(fld _ _ h3).2.1, (fld _ _ h3).1, fld3 _ h3, (fld _ _ h3).2.1, (fld _ _ h3).1]
        · intro xr
          apply copied_bytes_congr
          · intro _
            rw [(fld _ _ (by omega)).1, fld3 _ (by omega), (fld _ _ (by omega)).1]
          · intro xc
            apply copied_bytes_congr
            · intro _
              exact fld3 _ (by omega)
            · intro xf
              unfold copied3
              rw [copied_bytes_outside _ _ _ _ xr, copied_bytes_outside _ _ _ _ xc,
                copied_bytes_outside _ _ _ _ xf]
      · show (copied3 L p f c r (copied3 L p f c r s)).mem.mapped
          = (copied3 L p f c r s).mem.mapped
        unfold copied3
        rw [copied_mapped, copied_mapped, copied_mapped]

/-- C8 (a run): on `demoMachine`, with the format and channel slots both at 128 and a null
sample-rate slot, a second call leaves memory as the first one left it, and the decoder
still holds `(ma_format_s16, 2, 44100)` after the first. -/
theorem get_output_info_read_only_witness :
    ∃ s' t2, ma_decoder_get_output_info demoLayout 64 128 128 0 demoMachine = some s' ∧
      ma_decoder_get_output_info demoLayout 64 128 128 0 s' = some t2 ∧
      s'.mem.read32 72 = ma_format_s16 ∧ s'.mem.read32 76 = 2 ∧ s'.mem.read32 80 = 44100 ∧
      t2.mem = s'.mem := by
  obtain ⟨s', t2, h1, h2, _, v1, v2, v3, _, _, hm⟩ :=
    get_output_info_read_only demoLayout (by decide) 64 128 128 0 demoMachine
      (fun _ => by decide) (fun _ _ => by decide) (fun _ _ => by decide)
      (fun _ h => absurd rfl h)
  exact ⟨s', t2, h1, h2, v1.trans (by decide), v2.trans (by decide),
    v3.trans (by decide), hm⟩

/-- C9: `ma_decoder_alloc` performs no store: its only event is the host's `malloc`, and
memory after it is the memory the host's `malloc` returned.  So the block holds whatever the
host left there.  With a bump allocator whose arena holds `0xAB` leftovers (`staleMachine`),
Allocate returns the non-null pointer 16 and leaves every byte as it was; the three slots at
4, 8 and 12 hold zero after Allocate; Get output info on the fresh handle with these three
non-null slots returns normally and afterwards each slot holds the non-zero value
`0xABABABAB`, the leftover contents of the corresponding field of the block. -/
theorem alloc_leaves_block_untouched {σ : Type} (H : Host σ) (L : Layout) (hL : L.wf)
    (s : Machine σ) :
    (ma_decoder_alloc H L s).2.mem = (H.malloc s.heap s.mem L.sizeofDecoder).2.2 ∧
    (ma_decoder_alloc H L s).2.trace
      = s.trace ++ [Event.malloc L.sizeofDecoder (ma_decoder_alloc H L s).1] ∧
    (ma_decoder_alloc bumpHost L (staleMachine L)).1 = 16 ∧
    (ma_decoder_alloc bumpHost L (staleMachine L)).2.mem.bytes = (staleMachine L).mem.bytes ∧
    (ma_decoder_alloc bumpHost L (staleMachine L)).2.mem.read32 4 = 0 ∧
    (ma_decoder_alloc bumpHost L (staleMachine L)).2.mem.read32 8 = 0 ∧
    (ma_decoder_alloc bumpHost L (staleMachine L)).2.mem.read32 12 = 0 ∧
    ∃ t', ma_decoder_get_output_info L (ma_decoder_alloc bumpHost L (staleMachine L)).1 4 8 12
        (ma_decoder_alloc bumpHost L (staleMachine L)).2 = some t' ∧
      t'.mem.read32 4 = 2880154539 ∧ t'.mem.read32 8 = 2880154539 ∧
      t'.mem.read32 12 = 2880154539 ∧
      t'.mem.read32 4
        = (staleMachine L).mem.read32 (16 + L.offOutputFormat) ∧
      t'.mem.read32 8
        = (staleMachine L).mem.read32 (16 + L.offOutputChannels) ∧
      t'.mem.read32 12
        = (staleMachine L).mem.read32 (16 + L.offOutputSampleRate) ∧
      t'.mem.read32 4 ≠ 0 ∧ t'.mem.read32 8 ≠ 0 ∧ t'.mem.read32 12 ≠ 0 := by
  have hp : (ma_decoder_alloc bumpHost L (staleMachine L)).1 = 16 := by
    simp [ma_decoder_alloc, hostMalloc, bumpHost, staleMachine]
  have hbytes : (ma_decoder_alloc bumpHost L (staleMachine L)).2.mem.bytes
      = staleMem.bytes := by
    simp [ma_decoder_alloc, hostMalloc, bumpHost, staleMachine]
  have hmapped : ∀ a, a ≠ 0 →
      (ma_decoder_alloc bumpHost L (staleMachine L)).2.mem.mapped a = true := by
    intro a ha
    simp [ma_decoder_alloc, hostMalloc, bumpHost, staleMachine, staleMem, ha]
  have hvalid : ∀ a, a ≠ 0 →
      (ma_decoder_alloc bumpHost L (staleMachine L)).2.mem.valid32 a = true := by
    intro a ha
    simp only [Mem.valid32, Bool.and_eq_true]
    exact ⟨⟨⟨hmapped a ha, hmapped _ (by omega)⟩, hmapped _ (by omega)⟩, hmapped _ (by omega)⟩
  have h171 : ((171 : Fin 256) : Nat) = 171 := rfl
  have h0 : ((0 : Fin 256) : Nat) = 0 := rfl
  have hhigh : ∀ a, 16 ≤ a → staleMem.read32 a = 2880154539 := by
    intro a ha
    have e0 : ¬ a < 16 := by omega
    have e1 : ¬ a + 1 < 16 := by omega
    have e2 : ¬ a + 2 < 16 := by omega
    have e3 : ¬ a + 3 < 16 := by omega
    simp only [Mem.read32, staleMem, if_neg e0, if_neg e1, if_neg e2, if_neg e3, h171]
  have hlow : ∀ a, a + 4 ≤ 16 → staleMem.read32 a = 0 := by
    intro a ha
    have e0 : a < 16 := by omega
    have e1 : a + 1 < 16 := by omega
    have e2 : a + 2 < 16 := by omega
    have e3 : a + 3 < 16 := by omega
    simp only [Mem.read32, staleMem, if_pos e0, if_pos e1, if_pos e2, if_pos e3, h0]
  have hread : ∀ a, (ma_decoder_alloc bumpHost L (staleMachine L)).2.mem.read32 a
      = staleMem.read32 a := by
    intro a
    unfold Mem.read32
    rw [hbytes]
  have hv := copied3_read32_slots L hL 16 4 8 12
    (ma_decoder_alloc bumpHost L (staleMachine L)).2
    (by omega) (by omega) (by omega) (Or.inl (by omega)) (Or.inl (by omega))
    (Or.inl (by omega)) (Or.inl (by omega)) (Or.inl (by omega))
  have vF : (copied3 L 16 4 8 12 (ma_decoder_alloc bumpHost L (staleMachine L)).2).mem.read32 4
      = 2880154539 := by
    rw [hv.1, hread, hhigh _ (by omega)]
  have vC : (copied3 L 16 4 8 12 (ma_decoder_alloc bumpHost L (staleMachine L)).2).mem.read32 8
      = 2880154539 := by
    rw [hv.2.1, hread, hhigh _ (by omega)]
  have vR : (copied3 L 16 4 8 12 (ma_decoder_alloc bumpHost L (staleMachine L)).2).mem.read32 12
      = 2880154539 := by
    rw [hv.2.2, hread, hhigh _ (by omega)]
  refine ⟨rfl, rfl, hp, hbytes, ?_, ?_, ?_,
    copied3 L 16 4 8 12 (ma_decoder_alloc bumpHost L (staleMachine L)).2, ?_,
    vF, vC, vR, ?_, ?_, ?_, ?_, ?_, ?_⟩
  · rw [hread, hlow _ (by omega)]
  · rw [hread, hlow _ (by omega)]
  · rw [hread, hlow _ (by omega)]
  · rw [hp]
    exact get_output_info_some L hL 16 _ _ _ _ (by decide)
      (fun i _ => hmapped _ (by omega)) (fun _ => hvalid _ (by decide))
      (fun _ => hvalid _ (by decide)) (fun _ => hvalid _ (by decide))
  · rw [vF]; exact (hhigh _ (by omega)).symm
  · rw [vC]; exact (hhigh _ (by omega)).symm
  · rw [vR]; exact (hhigh _ (by omega)).symm
  · rw [vF]; omega
  · rw [vC]; omega
  · rw [vR]; omega

/-- C9 (a run): with `demoLayout` the decoder is allocated at 16 over `0xAB` leftovers; the
slots at 4, 8 and 12 hold zero before Get output info and `0xABABABAB` after it. -/
theorem alloc_leaves_block_untouched_witness :
    (ma_decoder_alloc bumpHost demoLayout (staleMachine demoLayout)).1 = 16 ∧
    (ma_decoder_alloc bumpHost demoLayout (staleMachine demoLayout)).2.mem.read32 4 = 0 ∧
    (ma_decoder_alloc bumpHost demoLayout (staleMachine demoLayout)).2.mem.read32 8 = 0 ∧
    (ma_decoder_alloc bumpHost demoLayout (staleMachine demoLayout)).2.mem.read32 12 = 0 ∧
    ∃ t', ma_decoder_get_output_info demoLayout 16 4 8 12
        (ma_decoder_alloc bumpHost demoLayout (staleMachine demoLayout)).2 = some t' ∧
      t'.mem.read32 4 = 2880154539 ∧ t'.mem.read32 8 = 2880154539 ∧
      t'.mem.read32 12 = 2880154539 := by
  obtain ⟨_, _, hp, _, b4, b8, b12, t', h, v4, v8, v12, _⟩ :=
    alloc_leaves_block_untouched bumpHost demoLayout (by decide) (staleMachine demoLayout)
  rw [hp] at h
  exact ⟨hp, b4, b8, b12, t', h, v4, v8, v12⟩

/-- C10: the three copies are done in the order format, channel count, sample rate, and each
store writes the value loaded from the decoder just before it.  For a non-null handle to a
mapped decoder: (a) when the channel slot and the sample-rate slot are one location `q` (and
neither `q` nor the format slot overlaps the `outputSampleRate` field), `q` ends holding the
decoder's `outputSampleRate`; (b) when the channel slot is the decoder's own
`outputSampleRate` field (and the format slot does not overlap the `outputChannels` field),
the load of `outputSampleRate` that follows returns the channel count, so the sample-rate
slot `r` ends holding the decoder's channel count, which is not the sample rate the decoder
had whenever the two differ. -/
theorem get_output_info_write_order {σ : Type} (L : Layout) (hL : L.wf)
    (p : Nat) (s : Machine σ) (hp : p ≠ 0) (hblk : s.mem.validBlock p L.sizeofDecoder) :
    (∀ f q, q ≠ 0 → s.mem.valid32 q = true → apart q (p + L.offOutputSampleRate) →
      (f = 0 ∨ (s.mem.valid32 f = true ∧ apart f (p + L.offOutputSampleRate))) →
      ∃ s' vc, ma_decoder_get_output_info L p f q q s = some s' ∧
        s'.mem.read32 q = s.mem.read32 (p + L.offOutputSampleRate) ∧
        s'.trace = s.trace ++
          (copyEvents (p + L.offOutputFormat) f (s.mem.read32 (p + L.offOutputFormat)) ++
            [Event.load (p + L.offOutputChannels) vc, Event.store q vc,
              Event.load (p + L.offOutputSampleRate)
                (s.mem.read32 (p + L.offOutputSampleRate)),
              Event.store q (s.mem.read32 (p + L.offOutputSampleRate))])) ∧
    (∀ f r, r ≠ 0 → s.mem.valid32 r = true →
      (f = 0 ∨ (s.mem.valid32 f = true ∧ apart f (p + L.offOutputChannels))) →
      ∃ s', ma_decoder_get_output_info L p f (p + L.offOutputSampleRate) r s = some s' ∧
        s'.mem.read32 r = s.mem.read32 (p + L.offOutputChannels) ∧
        (s.mem.read32 (p + L.offOutputChannels) ≠ s.mem.read32 (p + L.offOutputSampleRate) →
          s'.mem.read32 r ≠ s.mem.read32 (p + L.offOutputSampleRate)) ∧
        s'.trace = s.trace ++
          (copyEvents (p + L.offOutputFormat) f (s.mem.read32 (p + L.offOutputFormat)) ++
            [Event.load (p + L.offOutputChannels) (s.mem.read32 (p + L.offOutputChannels)),
              Event.store (p + L.offOutputSampleRate)
                (s.mem.read32 (p + L.offOutputChannels)),
              Event.load (p + L.offOutputSampleRate)
                (s.mem.read32 (p + L.offOutputChannels)),
              Event.store r (s.mem.read32 (p + L.offOutputChannels))])) := by
  have hw := hL
  obtain ⟨h1, h2, h3⟩ := hw
  constructor
  · intro f q hq hqv hqa hf
    have fv : f ≠ 0 → s.mem.valid32 f = true := fun h => (hf.resolve_left h).1
    have fa : f = 0 ∨ apart f (p + L.offOutputSampleRate) := hf.imp id (fun h => h.2)
    have e : (copied3 L p f q q s).mem.read32 q
        = s.mem.read32 (p + L.offOutputSampleRate) := by
      unfold copied3
      rw [copied_read32_same _ _ _ hq, copied_read32_apart _ _ _ _ (Or.inr hqa),
        copied_read32_apart _ _ _ _ fa]
    refine ⟨copied3 L p f q q s,
      (copied (p + L.offOutputFormat) f s).mem.read32 (p + L.offOutputChannels),
      get_output_info_some L hL p f q q s hp hblk fv (fun _ => hqv) (fun _ => hqv), e, ?_⟩
    rw [copied3_trace, copied_read32_apart _ _ _ _ (Or.inr hqa),
      copied_read32_apart _ _ _ _ fa]
    simp [copyEvents, hq]
  · intro f r hr hrv hf
    have pR : p + L.offOutputSampleRate ≠ 0 := by omega
    have fv : f ≠ 0 → s.mem.valid32 f = true := fun h => (hf.resolve_left h).1
    have fa : f = 0 ∨ apart f (p + L.offOutputChannels) := hf.imp id (fun h => h.2)
    have vR := valid32_of_validBlock s.mem p _ L.offOutputSampleRate hblk (by omega)
    have e : (copied3 L p f (p + L.offOutputSampleRate) r s).mem.read32 r
        = s.mem.read32 (p + L.offOutputChannels) := by
      unfold copied3
      rw [copied_read32_same _ _ _ hr, copied_read32_same _ _ _ pR,
        copied_read32_apart _ _ _ _ fa]
    refine ⟨copied3 L p f (p + L.offOutputSampleRate) r s,
      get_output_info_some L hL p f _ r s hp hblk fv (fun _ => vR) (fun _ => hrv), e, ?_, ?_⟩
    · intro hne
      rw [e]
      exact hne
    · rw [copied3_trace, copied_read32_same _ _ _ pR, copied_read32_apart _ _ _ _ fa]
      simp [copyEvents, hr, pR]

/-- C10 (a run): on `demoMachine` (decoder at 64 holding 2 channels and 44100 Hz), with
channel and sample-rate slot both at 132 the slot ends holding 44100; with the channel slot
at the decoder's own `outputSampleRate` field (address 80) the sample-rate slot at 136 ends
holding 2, and the six events come in the order format, channels, sample rate. -/
theorem get_output_info_write_order_witness :
    (∃ s', ma_decoder_get_output_info demoLayout 64 128 132 132 demoMachine = some s' ∧
      s'.mem.read32 132 = 44100) ∧
    (∃ s', ma_decoder_get_output_info demoLayout 64 128 80 136 demoMachine = some s' ∧
      s'.mem.read32 136 = 2 ∧
      s'.trace = [Event.load 72 2, Event.store 128 2, Event.load 76 2, Event.store 80 2,
        Event.load 80 2, Event.store 136 2]) := by
  have h := get_output_info_write_order demoLayout (by decide) 64 demoMachine
    (by decide) (by decide)
  constructor
  · obtain ⟨s', _, h1, h2, _⟩ :=
      h.1 128 132 (by decide) (by decide) (by decide) (Or.inr ⟨by decide, by decide⟩)
    exact ⟨s', h1, h2.trans (by decide)⟩
  · obtain ⟨s', h1, h2, _, h4⟩ :=
      h.2 128 136 (by decide) (by decide) (Or.inr ⟨by decide, by decide⟩)
    refine ⟨s', h1, h2.trans (by decide), ?_⟩
    rw [h4]
    decide

end MiniaudioWrapper
